import Mathlib

/-!
Verification development for the twn-cbs-notify alert pipeline
(`src/index.mjs`).  The JavaScript handler is shallowly embedded:

* strings are Lean `String`s, and `localeCompare`-based ordering is
  modelled by code-point lexicographic comparison (`listLt`);
* JavaScript objects used as maps (`latestTimeMap`, `tagUpdate`,
  `newAlarms`) are modelled as association-pair logs; the final object
  contents (per-key last value, keys in insertion order) are recovered by
  `finalPairs`, and reads use `List.lookup` (keys of loaded maps are
  unique);
* asynchronous effects are made explicit: fetched feed bodies are passed
  in as `Option RawResponse` (`none` = fetch/parse failure, which the
  source catches), the tag read is an `Option`, and the outcome of each
  post-phase operation is given by an oracle `postFails`.
-/

/-- Alert record as consumed from the feed JSON (fields `release_time`,
`page_key`, `CMAMtext`, and, for aggregated payloads, `alertType`). -/
structure AlarmMessage where
  release_time : String
  page_key : String
  CMAMtext : String
  alertType : String
deriving DecidableEq, Repr

/-- Does the character list `needle` occur at the head of the second list? -/
def startsL : List Char → List Char → Bool
  | [], _ => true
  | _ :: _, [] => false
  | n :: ns, h :: hs => n == h && startsL ns hs

/-- Does `needle` occur anywhere inside the second list (substring test)? -/
def containsSub (needle : List Char) : List Char → Bool
  | [] => startsL needle []
  | c :: cs => startsL needle (c :: cs) || containsSub needle cs

/-- Strict code-point lexicographic order on character lists; this models
the ordering induced by JavaScript `a.localeCompare(b) < 0` on the ASCII
timestamp strings used by the pipeline. -/
def listLt : List Char → List Char → Bool
  | [], [] => false
  | [], _ :: _ => true
  | _ :: _, [] => false
  | a :: as, b :: bs => if a < b then true else if b < a then false else listLt as bs

/-- Strict order on strings (model of `a.localeCompare(b) < 0`). -/
def strLtB (a b : String) : Bool := listLt a.data b.data

/-- Reflexive order on strings (model of `a.localeCompare(b) <= 0`). -/
def strLeB (a b : String) : Bool := !strLtB b a

theorem listLt_asymm : ∀ {a b : List Char}, listLt a b = true → listLt b a = false := by
  intro a
  induction a with
  | nil => intro b h; cases b <;> simp_all [listLt]
  | cons x xs ih =>
    intro b h
    cases b with
    | nil => simp [listLt] at h
    | cons y ys =>
      simp only [listLt] at h ⊢
      by_cases h1 : x < y
      · simp [h1, lt_asymm h1]
      · by_cases h2 : y < x
        · simp [h1, h2] at h
        · simp only [h1, h2, if_false] at h ⊢
          exact ih h

theorem listLt_trans :
    ∀ {a b c : List Char}, listLt a b = true → listLt b c = true → listLt a c = true := by
  intro a
  induction a with
  | nil =>
    intro b c hab hbc
    cases b with
    | nil => simp [listLt] at hab
    | cons y ys =>
      cases c with
      | nil => simp [listLt] at hbc
      | cons z zs => simp [listLt]
  | cons x xs ih =>
    intro b c hab hbc
    cases b with
    | nil => simp [listLt] at hab
    | cons y ys =>
      cases c with
      | nil => simp [listLt] at hbc
      | cons z zs =>
        simp only [listLt] at hab hbc ⊢
        by_cases h1 : x < y
        · by_cases h3 : y < z
          · simp [lt_trans h1 h3]
          · by_cases h4 : z < y
            · simp [h3, h4] at hbc
            · have hyz : y = z := le_antisymm (le_of_not_lt h4) (le_of_not_lt h3)
              subst hyz
              simp [h1]
        · by_cases h2 : y < x
          · simp [h1, h2] at hab
          · have hxy : x = y := le_antisymm (le_of_not_lt h2) (le_of_not_lt h1)
            subst hxy
            simp only [h1, lt_irrefl, if_false] at hab ⊢
            by_cases h3 : x < z
            · simp [h3]
            · by_cases h4 : z < x
              · simp [h3, h4] at hbc
              · simp only [h3, h4, if_false] at hbc ⊢
                exact ih hab hbc

theorem listLt_eq_of_not :
    ∀ {a b : List Char}, listLt a b = false → listLt b a = false → a = b := by
  intro a
  induction a with
  | nil => intro b hab _; cases b with
    | nil => rfl
    | cons y ys => simp [listLt] at hab
  | cons x xs ih =>
    intro b hab hba
    cases b with
    | nil => simp [listLt] at hba
    | cons y ys =>
      simp only [listLt] at hab hba
      by_cases h1 : x < y
      · simp [h1] at hab
      · by_cases h2 : y < x
        · simp [h1, h2] at hba
        · have hxy : x = y := le_antisymm (le_of_not_lt h2) (le_of_not_lt h1)
          subst hxy
          simp only [lt_irrefl, if_false] at hab hba
          rw [ih hab hba]

theorem listLt_notLt_trans :
    ∀ {a b c : List Char}, listLt b a = false → listLt c b = false → listLt c a = false := by
  intro a b c hba hcb
  by_cases hca : listLt c a = true
  · by_cases hbc : listLt b c = true
    · exact absurd (listLt_trans hbc hca) (by simp [hba])
    · have : b = c := listLt_eq_of_not (by simpa using hbc) hcb
      subst this
      simp_all
  · simpa using hca

theorem strLtB_trans {a b c : String} (h1 : strLtB a b = true) (h2 : strLtB b c = true) :
    strLtB a c = true := listLt_trans h1 h2

theorem strLtB_asymm {a b : String} (h : strLtB a b = true) : strLtB b a = false :=
  listLt_asymm h

theorem strLtB_notLt_trans {a b c : String} (h1 : strLtB b a = false)
    (h2 : strLtB c b = false) : strLtB c a = false := listLt_notLt_trans h1 h2

/-- Embedding of `isTestMessage` (src/index.mjs:63-65): the body matches the
drill/test marker regex `/(演練|演習)/ig` iff it contains one of the two
drill-indicating substrings. -/
def isTestMessage (message : String) : Bool :=
  containsSub "演練".data message.data || containsSub "演習".data message.data

/-- Digits of a string, the JS `s.replace(/\D/g, '')`. -/
def numericPortion (s : String) : List Char := s.data.filter Char.isDigit

/-- Embedding of `getAlarmPageKey` (src/index.mjs:41-51): when the raw
`page_key` is shorter than 12 characters, prepend the 4 digits of the
numeric portion of `release_time` starting at offset 2 (`substr(2, 4)`). -/
def getAlarmPageKey (am : AlarmMessage) : String :=
  if am.page_key.length < 12 then
    String.mk (((numericPortion am.release_time).drop 2).take 4) ++ am.page_key
  else am.page_key

/-- Fuelled scan for `message.replace(/\/\/gov\.tw\//g, '// gov [.] tw/')`:
replace each non-overlapping occurrence left to right, resuming after the
replaced text.  The fuel only bounds recursion depth; it is initialised to
the list length, which the scan never exceeds. -/
def replaceGovAux : Nat → List Char → List Char
  | 0, l => l
  | _ + 1, [] => []
  | fuel + 1, c :: cs =>
    if startsL "//gov.tw/".data (c :: cs) then
      "// gov [.] tw/".data ++ replaceGovAux fuel (cs.drop 8)
    else
      c :: replaceGovAux fuel cs

/-- The global-regex body rewrite of src/index.mjs:36. -/
def replaceGov (l : List Char) : List Char := replaceGovAux l.length l

/-- Embedding of `filterMessage` (src/index.mjs:34-39). -/
def filterMessage (oMessage : String) : String := String.mk (replaceGov oMessage.data)

/-- Embedding of `formatAlarm` (src/index.mjs:53-61). -/
def formatAlarm (am : AlarmMessage) : String :=
  filterMessage am.CMAMtext ++ "\n---\n" ++ ("https://cbs.tw/" ++ getAlarmPageKey am)

/-- Index of the first occurrence of `pat` in a character list, if any. -/
def firstIdx (pat : List Char) : List Char → Option Nat
  | [] => if startsL pat [] then some 0 else none
  | c :: cs => if startsL pat (c :: cs) then some 0 else (firstIdx pat cs).map (· + 1)

/-- JavaScript `hay.replace(pat, rep)` with a string pattern: replace the
first occurrence only. -/
def replaceFirstL (hay pat rep : List Char) : List Char :=
  match firstIdx pat hay with
  | some i => hay.take i ++ rep ++ hay.drop (i + pat.length)
  | none => hay

/-- String-level first-occurrence replacement. -/
def replaceFirstS (s pat rep : String) : String :=
  String.mk (replaceFirstL s.data pat.data rep.data)

/-- Placeholder substitution of the handler (src/index.mjs:105-108):
`template.replace('{year}', year).replace('{month}', month)`. -/
def resolveLocation (template year month : String) : String :=
  replaceFirstS (replaceFirstS template "{year}" year) "{month}" month

/-- The two configured location templates (src/index.mjs:5-8). -/
def pullingSources : List String :=
  ["https://cbs.tw/public/upload/files/json/{year}_earthquakeew.json",
   "https://cbs.tw/public/upload/files/json/{year}{month}.json"]

/-- Category kind of a resolved source location: a per-category feed with an
explicit category name, or the period-aggregated monthly report
(`MONTH_REPORT_TYPE`). -/
inductive SourceKind where
  | single (t : String)
  | monthReport
deriving DecidableEq, Repr

/-- JS `\w` word character: `[A-Za-z0-9_]`. -/
def isWordChar (c : Char) : Bool :=
  (('a' ≤ c && c ≤ 'z') || ('A' ≤ c && c ≤ 'Z') || ('0' ≤ c && c ≤ '9') || c == '_')

/-- Attempt to match `/\/\d{4}_(\w+)\.json/` at the head of the list,
returning the captured word run. -/
def matchPerCategoryAt (l : List Char) : Option String :=
  match l with
  | '/' :: rest =>
    if (rest.take 4).length == 4 && (rest.take 4).all Char.isDigit then
      match rest.drop 4 with
      | '_' :: rest2 =>
        if (rest2.takeWhile isWordChar).length > 0
            && startsL ".json".data (rest2.drop (rest2.takeWhile isWordChar).length) then
          some (String.mk (rest2.takeWhile isWordChar))
        else none
      | _ => none
    else none
  | _ => none

/-- Leftmost match of the per-category filename pattern
`/\/\d{4}_(\w+)\.json/` (src/index.mjs:111). -/
def findPerCategory : List Char → Option String
  | [] => none
  | c :: cs =>
    match matchPerCategoryAt (c :: cs) with
    | some w => some w
    | none => findPerCategory cs

/-- Attempt to match `/\/\d{6}\.json/` at the head of the list. -/
def matchMonthAt (l : List Char) : Bool :=
  match l with
  | '/' :: rest =>
    (rest.take 6).length == 6 && (rest.take 6).all Char.isDigit
      && startsL ".json".data (rest.drop 6)
  | _ => false

/-- Does the period-aggregated filename pattern `/\/\d{6}\.json/` match
anywhere (src/index.mjs:113)? -/
def hasMonthPat : List Char → Bool
  | [] => false
  | c :: cs => matchMonthAt (c :: cs) || hasMonthPat cs

/-- Embedding of the source classification (src/index.mjs:110-115): the
per-category pattern is tried first, then the monthly-report pattern; a
location matching neither is left without a kind (`sourceType[i]` stays
unassigned). -/
def resolveSourceType (s : String) : Option SourceKind :=
  match findPerCategory s.data with
  | some w => some (SourceKind.single w)
  | none => if hasMonthPat s.data then some SourceKind.monthReport else none

/-- The response payload `r.data.data`: a flat alert list for per-category
feeds, or the monthly report's nested grouping, a mapping whose values are
two further levels of nested mappings with alert-record leaves. -/
inductive FeedData where
  | single (alertMessages : List AlarmMessage)
  | aggregated (data : List (String × List (String × List (String × AlarmMessage))))
deriving DecidableEq

/-- A fetched feed response: content type, the body's `success` flag and its
`data` payload. -/
structure RawResponse where
  contentType : String
  success : Bool
  payload : FeedData
deriving DecidableEq

/-- JS `Object.values` on an association list. -/
def objValues {α : Type} (m : List (String × α)) : List α := m.map Prod.snd

/-- Embedding of
`Object.values(r.data.data).flatMap(Object.values).flatMap(Object.values)`
(src/index.mjs:134). -/
def flattenAggregated
    (d : List (String × List (String × List (String × AlarmMessage)))) :
    List AlarmMessage :=
  ((objValues d).flatMap objValues).flatMap objValues

/-- The comparator `(a, b) => a.release_time.localeCompare(b.release_time)`
as a reflexive ordering relation. -/
def leRecP (a b : AlarmMessage) : Prop := strLeB a.release_time b.release_time = true

instance instDecLeRecP : DecidableRel leRecP := fun a b =>
  inferInstanceAs (Decidable (strLeB a.release_time b.release_time = true))

instance instTotalLeRecP : IsTotal AlarmMessage leRecP := by
  constructor
  intro a b
  simp only [leRecP, strLeB, Bool.not_eq_true']
  by_cases h : strLtB a.release_time b.release_time = true
  · exact Or.inl (strLtB_asymm h)
  · exact Or.inr (by simpa using h)

instance instTransLeRecP : IsTrans AlarmMessage leRecP := by
  constructor
  intro a b c hab hbc
  simp only [leRecP, strLeB, Bool.not_eq_true'] at *
  exact strLtB_notLt_trans hab hbc

/-- Ascending stable sort by `release_time` (src/index.mjs:130-137), as a
stable insertion sort. -/
def sortRecords (l : List AlarmMessage) : List AlarmMessage :=
  l.insertionSort leRecP

/-- Embedding of the fetch continuation (src/index.mjs:127-141): `none`
models a rejected fetch or a thrown payload-shape error (both end in the
`.catch`, so the dedup loop sees no data); a non-JSON content type or a
false `success` flag gives `null`, i.e. `none` as well. -/
def normalizeFeed : Option SourceKind → Option RawResponse → Option (List AlarmMessage)
  | _, none => none
  | kind, some r =>
    if r.contentType == "application/json" && r.success then
      match kind, r.payload with
      | some (SourceKind.single _), FeedData.single msgs => some (sortRecords msgs)
      | some SourceKind.monthReport, FeedData.aggregated d =>
          some (sortRecords (flattenAggregated d))
      | _, _ => none
    else none

/-- A configured source for one run: its resolved location and the fetched
response (if any). -/
structure SourceInput where
  url : String
  resp : Option RawResponse
deriving DecidableEq

/-- Kind of a source, from its resolved location. -/
def kindOf (s : SourceInput) : Option SourceKind := resolveSourceType s.url

/-- The watermark tag key `TYPE_PREFIX + type` (src/index.mjs:12). -/
def tagKey (t : String) : String := "alertType_" ++ t

/-- Key prefix test `k.startsWith(TYPE_PREFIX)`. -/
def hasTypePfx (k : String) : Bool := startsL "alertType_".data k.data

/-- Embedding of `fetchAlarmLatestUpdate` (src/index.mjs:17-32): keep only
the tags whose key carries the `alertType_` prefix. -/
def fetchAlarmLatestUpdate (tags : List (String × String)) : List (String × String) :=
  tags.filter (fun kv => hasTypePfx kv.1)

/-- The loaded watermark for a tag key: `latestTimeMap[key] || ''`. -/
def wmOf (ltm : List (String × String)) (key : String) : String :=
  (List.lookup key ltm).getD ""

/-- `textTypes` (src/index.mjs:118): category names of the sources that
resolved to a per-category kind. -/
def textTypesOf (inputs : List SourceInput) : List String :=
  inputs.filterMap (fun s =>
    match kindOf s with
    | some (SourceKind.single t) => some t
    | _ => none)

/-- The tag key a record's watermark write would use: the source's fixed
category for per-category feeds, the record's own `alertType` for the
monthly report. -/
def recordKey (kind : SourceKind) (r : AlarmMessage) : String :=
  match kind with
  | SourceKind.single t => tagKey t
  | SourceKind.monthReport => tagKey r.alertType

/-- Inclusion test of the dedup loop (src/index.mjs:157-174): the record's
`release_time` must sort strictly after the loaded watermark for its tag
key, its body must not match the drill filter and, for the monthly report,
its `alertType` must be a tracked category. -/
def includeB (ltm : List (String × String)) (tts : List String) :
    SourceKind → AlarmMessage → Bool
  | SourceKind.single t, r =>
      strLtB (wmOf ltm (tagKey t)) r.release_time && !isTestMessage r.CMAMtext
  | SourceKind.monthReport, r =>
      tts.contains r.alertType
        && (strLtB (wmOf ltm (tagKey r.alertType)) r.release_time
             && !isTestMessage r.CMAMtext)

/-- Dedup-loop state: append-only logs of the assignments
`newAlarms[pageKey] = r` and `tagUpdate[key] = r.release_time`. -/
structure RunState where
  newAlarms : List (String × AlarmMessage)
  tagUpdate : List (String × String)
deriving DecidableEq, Repr

/-- Processing of one record by the dedup loop body. -/
def processRecord (ltm : List (String × String)) (tts : List String)
    (kind : SourceKind) (st : RunState) (r : AlarmMessage) : RunState :=
  if includeB ltm tts kind r then
    ⟨st.newAlarms ++ [(getAlarmPageKey r, r)],
     st.tagUpdate ++ [(recordKey kind r, r.release_time)]⟩
  else st

/-- Processing of one source by the dedup loop (src/index.mjs:149-177): a
source without a kind or without a normalized result contributes nothing
(`if(!result) continue` and the untaken `if`/`else if`). -/
def processSource (ltm : List (String × String)) (tts : List String)
    (s : SourceInput) (st : RunState) : RunState :=
  match kindOf s, normalizeFeed (kindOf s) s.resp with
  | some k, some msgs => msgs.foldl (processRecord ltm tts k) st
  | _, _ => st

/-- The full dedup pass over all sources (src/index.mjs:144-177). -/
def runDedup (ltm : List (String × String)) (inputs : List SourceInput) : RunState :=
  inputs.foldl (fun st s => processSource ltm (textTypesOf inputs) s st) ⟨[], []⟩

/-- Insert-or-update of one key in a JS object modelled as an association
list: an existing key keeps its position and gets the new value, a fresh
key is appended. -/
def upsert {α : Type} : List (String × α) → String → α → List (String × α)
  | [], k, v => [(k, v)]
  | (k', v') :: rest, k, v =>
      if k' = k then (k', v) :: rest else (k', v') :: upsert rest k v

/-- The final contents of a JS object built by the assignments in `log`
(performed left to right): per-key last value, keys in insertion order. -/
def finalPairs {α : Type} (log : List (String × α)) : List (String × α) :=
  log.foldl (fun acc kv => upsert acc kv.1 kv.2) []

/-- A post-phase operation issued by the handler (src/index.mjs:179-204). -/
inductive PostOp where
  | tagWrite (tags : List (String × String))
  | webhookPost (url : String) (text : String)
deriving DecidableEq, Repr

/-- Is the operation the merge-write of watermark tags? -/
def PostOp.isTagWrite : PostOp → Bool
  | PostOp.tagWrite _ => true
  | _ => false

/-- Comma split of the webhook list, JS `s.split(',')`: every comma is a
separator and empty segments are kept. -/
def splitCommaL : List Char → List Char → List String
  | acc, [] => [String.mk acc.reverse]
  | acc, c :: cs =>
    if c == ',' then String.mk acc.reverse :: splitCommaL [] cs
    else splitCommaL (c :: acc) cs

/-- String-level comma split. -/
def splitComma (s : String) : List String := splitCommaL [] s.data

/-- Webhook deliveries (src/index.mjs:190-202): for each entry of
`newAlarms` and each configured webhook, post the formatted message.  An
unset or empty `SLACK_WEBHOOKS` is falsy, so no posts are issued. -/
def webhookOps (st : RunState) : Option String → List PostOp
  | none => []
  | some s =>
      if s == "" then []
      else (finalPairs st.newAlarms).flatMap (fun kv =>
        (splitComma s).map (fun w => PostOp.webhookPost w (formatAlarm kv.2)))

/-- All post-phase operations: the tag merge-write (only when `tagUpdate`
has at least one key, src/index.mjs:181-187) followed by the webhook
posts. -/
def postOps (st : RunState) (webhooksEnv : Option String) : List PostOp :=
  (if st.tagUpdate.isEmpty then [] else [PostOp.tagWrite (finalPairs st.tagUpdate)])
    ++ webhookOps st webhooksEnv

/-- The handler's returned value. -/
structure Response where
  statusCode : Nat
  body : String
deriving DecidableEq, Repr

/-- The run's source inputs: each configured template is resolved and paired
with its fetched response. -/
def handlerInputs (sources : List String) (year month : String)
    (responses : List (Option RawResponse)) : List SourceInput :=
  ((sources.map (fun t => resolveLocation t year month)).zip responses).map
    (fun p => SourceInput.mk p.1 p.2)

/-- The post-phase operations a run issues. -/
def handlerOps (sources : List String) (year month : String)
    (tags : List (String × String)) (responses : List (Option RawResponse))
    (webhooksEnv : Option String) : List PostOp :=
  postOps
    (runDedup (fetchAlarmLatestUpdate tags) (handlerInputs sources year month responses))
    webhooksEnv

/-- Embedding of the handler (src/index.mjs:89-211), parametric in the
configured location templates.  A failed tag read rejects the run; fetch
failures are absorbed into `none` responses; the post-phase promises carry
no `.catch`, so `await Promise.all(postPromises)` rejects the invocation as
soon as any of them fails, and only otherwise is the fixed
`{statusCode: 204, body: ''}` returned. -/
def handler (sources : List String) (year month : String)
    (tagRead : Option (List (String × String)))
    (responses : List (Option RawResponse)) (webhooksEnv : Option String)
    (postFails : PostOp → Bool) : Except Unit Response :=
  match tagRead with
  | none => Except.error ()
  | some tags =>
    if (handlerOps sources year month tags responses webhooksEnv).all
        (fun op => !postFails op) then
      Except.ok ⟨204, ""⟩
    else Except.error ()

/-- The tag map after the run's merge-write commit (`TagResourceCommand`
merges the update keys over the existing tags; nothing is written when
`tagUpdate` is empty). -/
def commitTags (tags : List (String × String)) (st : RunState) :
    List (String × String) :=
  if st.tagUpdate.isEmpty then tags else finalPairs st.tagUpdate ++ tags

/-- One dedup pass starting from persisted tags. -/
def pipelineRun (tags : List (String × String)) (inputs : List SourceInput) : RunState :=
  runDedup (fetchAlarmLatestUpdate tags) inputs

/-- The normalized record sequence a source contributes to the dedup loop. -/
def sourceMsgs (s : SourceInput) : List AlarmMessage :=
  (normalizeFeed (kindOf s) s.resp).getD []

/-- The `newAlarms` assignments contributed by one source. -/
def sourceAlarms (ltm : List (String × String)) (tts : List String)
    (s : SourceInput) : List (String × AlarmMessage) :=
  match kindOf s with
  | some k =>
      ((sourceMsgs s).filter (includeB ltm tts k)).map (fun r => (getAlarmPageKey r, r))
  | none => []

/-- The `tagUpdate` assignments contributed by one source. -/
def sourceWrites (ltm : List (String × String)) (tts : List String)
    (s : SourceInput) : List (String × String) :=
  match kindOf s with
  | some k =>
      ((sourceMsgs s).filter (includeB ltm tts k)).map
        (fun r => (recordKey k r, r.release_time))
  | none => []

/-- Is a record of this kind subject to the tracked-category gate? -/
def trackGate (tts : List String) : SourceKind → AlarmMessage → Bool
  | SourceKind.single _, _ => true
  | SourceKind.monthReport, r => tts.contains r.alertType

theorem includeB_eq (ltm : List (String × String)) (tts : List String)
    (k : SourceKind) (r : AlarmMessage) :
    includeB ltm tts k r =
      (trackGate tts k r
        && (strLtB (wmOf ltm (recordKey k r)) r.release_time
             && !isTestMessage r.CMAMtext)) := by
  cases k <;> simp [includeB, trackGate, recordKey]

theorem foldl_processRecord (ltm : List (String × String)) (tts : List String)
    (k : SourceKind) :
    ∀ (msgs : List AlarmMessage) (st : RunState),
      msgs.foldl (processRecord ltm tts k) st =
        ⟨st.newAlarms ++ (msgs.filter (includeB ltm tts k)).map
            (fun r => (getAlarmPageKey r, r)),
         st.tagUpdate ++ (msgs.filter (includeB ltm tts k)).map
            (fun r => (recordKey k r, r.release_time))⟩ := by
  intro msgs
  induction msgs with
  | nil => intro st; simp
  | cons r rest ih =>
    intro st
    simp only [List.foldl_cons]
    rw [ih]
    unfold processRecord
    by_cases h : includeB ltm tts k r = true
    · simp [h, List.filter_cons, List.append_assoc]
    · simp only [Bool.not_eq_true] at h
      simp [h, List.filter_cons]

theorem processSource_eq (ltm : List (String × String)) (tts : List String)
    (s : SourceInput) (st : RunState) :
    processSource ltm tts s st =
      ⟨st.newAlarms ++ sourceAlarms ltm tts s,
       st.tagUpdate ++ sourceWrites ltm tts s⟩ := by
  unfold processSource sourceAlarms sourceWrites sourceMsgs
  cases hk : kindOf s with
  | none => simp
  | some k =>
    cases hn : normalizeFeed (some k) s.resp with
    | none => simp [hk, hn]
    | some msgs => simp [hk, hn, foldl_processRecord]

theorem foldl_processSource (ltm : List (String × String)) (tts : List String) :
    ∀ (rest : List SourceInput) (st : RunState),
      rest.foldl (fun st s => processSource ltm tts s st) st =
        ⟨st.newAlarms ++ rest.flatMap (sourceAlarms ltm tts),
         st.tagUpdate ++ rest.flatMap (sourceWrites ltm tts)⟩ := by
  intro rest
  induction rest with
  | nil => intro st; simp
  | cons s rest ih =>
    intro st
    simp only [List.foldl_cons]
    rw [processSource_eq, ih]
    simp [List.append_assoc]

theorem runDedup_eq (ltm : List (String × String)) (inputs : List SourceInput) :
    runDedup ltm inputs =
      ⟨inputs.flatMap (sourceAlarms ltm (textTypesOf inputs)),
       inputs.flatMap (sourceWrites ltm (textTypesOf inputs))⟩ := by
  unfold runDedup
  rw [foldl_processSource]
  simp

theorem lookup_append_some {α : Type} {l₁ l₂ : List (String × α)} {k : String} {v : α}
    (h : List.lookup k l₁ = some v) : List.lookup k (l₁ ++ l₂) = some v := by
  induction l₁ with
  | nil => simp at h
  | cons kv rest ih =>
    rw [List.cons_append]
    rw [List.lookup_cons] at h ⊢
    cases hb : (k == kv.1) with
    | true => simpa [hb] using h
    | false =>
      simp only [hb] at h ⊢
      exact ih h

theorem lookup_append_none {α : Type} {l₁ l₂ : List (String × α)} {k : String}
    (h : List.lookup k l₁ = none) : List.lookup k (l₁ ++ l₂) = List.lookup k l₂ := by
  induction l₁ with
  | nil => simp
  | cons kv rest ih =>
    rw [List.cons_append]
    rw [List.lookup_cons] at h ⊢
    cases hb : (k == kv.1) with
    | true => simp [hb] at h
    | false =>
      simp only [hb] at h ⊢
      exact ih h

theorem lookup_isSome_iff {α : Type} {l : List (String × α)} {k : String} :
    (List.lookup k l).isSome = true ↔ k ∈ l.map Prod.fst := by
  induction l with
  | nil => simp
  | cons kv rest ih =>
    rw [List.lookup_cons]
    cases hb : (k == kv.1) with
    | true =>
      have : k = kv.1 := eq_of_beq hb
      simp [this]
    | false =>
      have : ¬ k = kv.1 := by simpa using beq_eq_false_iff_ne.mp hb
      simp [this, ih]

theorem mem_of_lookup_some {α : Type} {l : List (String × α)} {k : String} {v : α}
    (h : List.lookup k l = some v) : (k, v) ∈ l := by
  induction l with
  | nil => simp at h
  | cons kv rest ih =>
    rw [List.lookup_cons] at h
    cases hb : (k == kv.1) with
    | true =>
      have hk : k = kv.1 := eq_of_beq hb
      simp only [hb] at h
      have : kv = (k, v) := by
        cases kv
        simp at h hk
        simp [hk, h]
      simp [this]
    | false =>
      simp only [hb] at h
      exact List.mem_cons_of_mem _ (ih h)

theorem lookup_not_mem {α : Type} {l : List (String × α)} {k : String}
    (h : k ∉ l.map Prod.fst) : List.lookup k l = none := by
  cases hl : List.lookup k l with
  | none => rfl
  | some v =>
    exact absurd (lookup_isSome_iff.mp (by simp [hl])) h

theorem lookup_upsert_self {α : Type} (l : List (String × α)) (k : String) (v : α) :
    List.lookup k (upsert l k v) = some v := by
  induction l with
  | nil => simp [upsert, List.lookup_cons]
  | cons kv rest ih =>
    unfold upsert
    by_cases hk : kv.1 = k
    · cases kv
      simp_all [List.lookup_cons]
    · cases kv with
    | mk k' v' =>
      simp only at hk
      simp only [hk, if_false]
      rw [List.lookup_cons]
      have : (k == k') = false := by simpa using (Ne.symm hk)
      simp only [this]
      exact ih

theorem lookup_upsert_ne {α : Type} (l : List (String × α)) (k : String) (v : α)
    {k₀ : String} (h : k₀ ≠ k) : List.lookup k₀ (upsert l k v) = List.lookup k₀ l := by
  induction l with
  | nil =>
    simp only [upsert, List.lookup_cons]
    have : (k₀ == k) = false := by simpa using h
    simp [this]
  | cons kv rest ih =>
    unfold upsert
    by_cases hk : kv.1 = k
    · cases kv with
      | mk k' v' =>
        simp only at hk
        simp only [hk, if_true]
        rw [List.lookup_cons, List.lookup_cons]
        have : (k₀ == k) = false := by simpa using h
        simp [this]
    · cases kv with
      | mk k' v' =>
        simp only at hk
        simp only [hk, if_false]
        rw [List.lookup_cons, List.lookup_cons]
        cases hb : (k₀ == k') with
        | true => simp
        | false => simpa [hb] using ih

theorem lookup_foldl_upsert {α : Type} :
    ∀ (log : List (String × α)) (acc : List (String × α)) (k : String),
      List.lookup k (log.foldl (fun a kv => upsert a kv.1 kv.2) acc) =
        match List.lookup k log.reverse with
        | some v => some v
        | none => List.lookup k acc := by
  intro log
  induction log with
  | nil => intro acc k; simp
  | cons kv rest ih =>
    intro acc k
    simp only [List.foldl_cons, List.reverse_cons]
    rw [ih]
    cases hr : List.lookup k rest.reverse with
    | some v => simp [lookup_append_some hr]
    | none =>
      simp only [lookup_append_none hr]
      rw [List.lookup_cons]
      cases hb : (k == kv.1) with
      | true =>
        have : k = kv.1 := eq_of_beq hb
        simp [this, lookup_upsert_self]
      | false =>
        have : k ≠ kv.1 := by simpa using beq_eq_false_iff_ne.mp hb
        simp [lookup_upsert_ne _ _ _ this]

theorem lookup_finalPairs {α : Type} (log : List (String × α)) (k : String) :
    List.lookup k (finalPairs log) = List.lookup k log.reverse := by
  unfold finalPairs
  rw [lookup_foldl_upsert]
  cases List.lookup k log.reverse <;> simp

theorem keys_upsert {α : Type} (l : List (String × α)) (k : String) (v : α) :
    (upsert l k v).map Prod.fst =
      if k ∈ l.map Prod.fst then l.map Prod.fst else l.map Prod.fst ++ [k] := by
  induction l with
  | nil => simp [upsert]
  | cons kv rest ih =>
    cases kv with
    | mk k' v' =>
      unfold upsert
      by_cases hk : k' = k
      · simp [hk]
      · simp only [hk, if_false, List.map_cons, ih]
        by_cases hm : k ∈ rest.map Prod.fst
        · simp [hm, Ne.symm hk]
        · simp [hm, Ne.symm hk, hk]

theorem keys_nodup_upsert {α : Type} {l : List (String × α)} (k : String) (v : α)
    (h : (l.map Prod.fst).Nodup) : ((upsert l k v).map Prod.fst).Nodup := by
  rw [keys_upsert]
  by_cases hm : k ∈ l.map Prod.fst
  · simpa [hm] using h
  · simp [hm, List.nodup_append, h]

theorem keys_nodup_foldl_upsert {α : Type} :
    ∀ (log : List (String × α)) (acc : List (String × α)),
      (acc.map Prod.fst).Nodup →
      ((log.foldl (fun a kv => upsert a kv.1 kv.2) acc).map Prod.fst).Nodup := by
  intro log
  induction log with
  | nil => intro acc h; simpa using h
  | cons kv rest ih =>
    intro acc h
    simp only [List.foldl_cons]
    exact ih _ (keys_nodup_upsert _ _ h)

theorem keys_nodup_finalPairs {α : Type} (log : List (String × α)) :
    ((finalPairs log).map Prod.fst).Nodup :=
  keys_nodup_foldl_upsert log [] (by simp)

theorem mem_keys_finalPairs {α : Type} (log : List (String × α)) (k : String) :
    k ∈ (finalPairs log).map Prod.fst ↔ k ∈ log.map Prod.fst := by
  rw [← lookup_isSome_iff, lookup_finalPairs, lookup_isSome_iff, List.map_reverse,
    List.mem_reverse]

theorem countP_key_of_nodup {α : Type} {l : List (String × α)} {k : String}
    (h : (l.map Prod.fst).Nodup) (hk : k ∈ l.map Prod.fst) :
    l.countP (fun kv => kv.1 == k) = 1 := by
  have : l.countP (fun kv => kv.1 == k) = (l.map Prod.fst).countP (fun x => x == k) := by
    rw [List.countP_map]
    rfl
  rw [this]
  have : (l.map Prod.fst).countP (fun x => x == k) = (l.map Prod.fst).count k := by
    simp [List.count]
  rw [this]
  exact List.count_eq_one_of_mem h hk

theorem sorted_normalizeFeed {kind : Option SourceKind} {resp : Option RawResponse}
    {msgs : List AlarmMessage} (h : normalizeFeed kind resp = some msgs) :
    msgs.Pairwise leRecP := by
  unfold normalizeFeed at h
  cases resp with
  | none => simp at h
  | some r =>
    by_cases hc : (r.contentType == "application/json" && r.success) = true
    · simp only [hc, if_true] at h
      match kind, hr : r.payload with
      | some (SourceKind.single t), FeedData.single ms =>
        rw [hr] at h
        simp only [Option.some.injEq] at h
        rw [← h]
        exact List.sorted_insertionSort leRecP ms
      | some SourceKind.monthReport, FeedData.aggregated d =>
        rw [hr] at h
        simp only [Option.some.injEq] at h
        rw [← h]
        exact List.sorted_insertionSort leRecP (flattenAggregated d)
      | some (SourceKind.single t), FeedData.aggregated d => rw [hr] at h; simp at h
      | some SourceKind.monthReport, FeedData.single ms => rw [hr] at h; simp at h
      | none, FeedData.single ms => rw [hr] at h; simp at h
      | none, FeedData.aggregated d => rw [hr] at h; simp at h
    · simp only [Bool.not_eq_true] at hc
      simp [hc] at h

theorem mem_sourceAlarms {ltm : List (String × String)} {tts : List String}
    {s : SourceInput} {pk : String} {r : AlarmMessage}
    (h : (pk, r) ∈ sourceAlarms ltm tts s) :
    ∃ k, kindOf s = some k ∧ r ∈ sourceMsgs s ∧ includeB ltm tts k r = true
      ∧ pk = getAlarmPageKey r := by
  unfold sourceAlarms at h
  cases hk : kindOf s with
  | none => rw [hk] at h; simp at h
  | some k =>
    rw [hk] at h
    rcases List.mem_map.mp h with ⟨r', hr', heq⟩
    rcases List.mem_filter.mp hr' with ⟨hmem, hinc⟩
    rcases Prod.mk.injEq .. ▸ heq with ⟨hpk, hr⟩
    subst hr
    exact ⟨k, rfl, hmem, hinc, hpk.symm⟩

theorem mem_sourceWrites {ltm : List (String × String)} {tts : List String}
    {s : SourceInput} {key v : String}
    (h : (key, v) ∈ sourceWrites ltm tts s) :
    ∃ k r, kindOf s = some k ∧ r ∈ sourceMsgs s ∧ includeB ltm tts k r = true
      ∧ key = recordKey k r ∧ v = r.release_time := by
  unfold sourceWrites at h
  cases hk : kindOf s with
  | none => rw [hk] at h; simp at h
  | some k =>
    rw [hk] at h
    rcases List.mem_map.mp h with ⟨r', hr', heq⟩
    rcases List.mem_filter.mp hr' with ⟨hmem, hinc⟩
    rcases Prod.mk.injEq .. ▸ heq with ⟨hkey, hv⟩
    exact ⟨k, r', rfl, hmem, hinc, hkey.symm, hv.symm⟩

theorem mem_newAlarms_spec {ltm : List (String × String)} {inputs : List SourceInput}
    {pk : String} {r : AlarmMessage}
    (h : (pk, r) ∈ (runDedup ltm inputs).newAlarms) :
    ∃ s ∈ inputs, ∃ k, kindOf s = some k ∧ r ∈ sourceMsgs s
      ∧ includeB ltm (textTypesOf inputs) k r = true ∧ pk = getAlarmPageKey r := by
  rw [runDedup_eq] at h
  rcases List.mem_flatMap.mp h with ⟨s, hs, hmem⟩
  exact ⟨s, hs, mem_sourceAlarms hmem⟩

theorem mem_tagUpdate_spec {ltm : List (String × String)} {inputs : List SourceInput}
    {key v : String}
    (h : (key, v) ∈ (runDedup ltm inputs).tagUpdate) :
    ∃ s ∈ inputs, ∃ k r, kindOf s = some k ∧ r ∈ sourceMsgs s
      ∧ includeB ltm (textTypesOf inputs) k r = true ∧ key = recordKey k r
      ∧ v = r.release_time := by
  rw [runDedup_eq] at h
  rcases List.mem_flatMap.mp h with ⟨s, hs, hmem⟩
  exact ⟨s, hs, mem_sourceWrites hmem⟩

theorem write_mem_of_included {ltm : List (String × String)} {inputs : List SourceInput}
    {s : SourceInput} {k : SourceKind} {r : AlarmMessage}
    (hs : s ∈ inputs) (hk : kindOf s = some k) (hr : r ∈ sourceMsgs s)
    (hi : includeB ltm (textTypesOf inputs) k r = true) :
    (recordKey k r, r.release_time) ∈ (runDedup ltm inputs).tagUpdate := by
  rw [runDedup_eq]
  apply List.mem_flatMap.mpr
  refine ⟨s, hs, ?_⟩
  unfold sourceWrites
  rw [hk]
  exact List.mem_map.mpr ⟨r, List.mem_filter.mpr ⟨hr, hi⟩, rfl⟩

theorem sourceWrites_pairwise (ltm : List (String × String)) (tts : List String)
    (s : SourceInput) :
    List.Pairwise (fun a b : String × String => strLtB b.2 a.2 = false)
      (sourceWrites ltm tts s) := by
  unfold sourceWrites
  cases hk : kindOf s with
  | none => simp
  | some k =>
    unfold sourceMsgs
    cases hn : normalizeFeed (kindOf s) s.resp with
    | none => simp
    | some msgs =>
      simp only [Option.getD_some]
      have hsort : msgs.Pairwise leRecP := sorted_normalizeFeed hn
      have hfilter := List.Pairwise.filter (includeB ltm tts k) hsort
      rw [List.pairwise_map]
      apply hfilter.imp
      intro a b hab
      simpa [leRecP, strLeB, Bool.not_eq_true'] using hab

theorem startsL_append_self : ∀ (p rest : List Char), startsL p (p ++ rest) = true := by
  intro p
  induction p with
  | nil => intro rest; simp [startsL]
  | cons c cs ih => intro rest; simp [startsL, ih]

theorem hasTypePfx_tagKey (t : String) : hasTypePfx (tagKey t) = true := by
  unfold hasTypePfx tagKey
  have : ("alertType_" ++ t).data = "alertType_".data ++ t.data := by
    cases t with
    | mk l => rfl
  rw [this]
  exact startsL_append_self _ _

theorem recordKey_pfx (k : SourceKind) (r : AlarmMessage) :
    hasTypePfx (recordKey k r) = true := by
  cases k <;> simp [recordKey, hasTypePfx_tagKey]

theorem tagUpdate_keys_pfx {ltm : List (String × String)} {inputs : List SourceInput}
    {kv : String × String} (h : kv ∈ (runDedup ltm inputs).tagUpdate) :
    hasTypePfx kv.1 = true := by
  obtain ⟨k, v⟩ := kv
  rcases mem_tagUpdate_spec h with ⟨s, _, kk, r, _, _, _, hkey, _⟩
  rw [hkey]
  exact recordKey_pfx kk r

theorem mem_finalPairs_key {α : Type} {log : List (String × α)} {kv : String × α}
    (h : kv ∈ finalPairs log) : kv.1 ∈ log.map Prod.fst :=
  (mem_keys_finalPairs log kv.1).mp (List.mem_map_of_mem Prod.fst h)

theorem commit_fetch_eq {tags : List (String × String)} {ltm : List (String × String)}
    {inputs : List SourceInput}
    (hne : (runDedup ltm inputs).tagUpdate ≠ []) :
    fetchAlarmLatestUpdate (commitTags tags (runDedup ltm inputs)) =
      finalPairs (runDedup ltm inputs).tagUpdate ++ fetchAlarmLatestUpdate tags := by
  unfold commitTags
  have : (runDedup ltm inputs).tagUpdate.isEmpty = false := by
    simpa [List.isEmpty_iff] using hne
  rw [this]
  simp only [Bool.false_eq_true, if_false]
  unfold fetchAlarmLatestUpdate
  rw [List.filter_append]
  congr 1
  apply List.filter_eq_self.mpr
  intro kv hkv
  rcases List.mem_map.mp ((mem_keys_finalPairs _ kv.1).mp
    (List.mem_map_of_mem Prod.fst hkv)) with ⟨kv', hkv', heq⟩
  have := @tagUpdate_keys_pfx ltm inputs kv' hkv'
  rw [heq] at this
  exact this

theorem alarm_mem_of_included {ltm : List (String × String)} {inputs : List SourceInput}
    {s : SourceInput} {k : SourceKind} {r : AlarmMessage}
    (hs : s ∈ inputs) (hk : kindOf s = some k) (hr : r ∈ sourceMsgs s)
    (hi : includeB ltm (textTypesOf inputs) k r = true) :
    (getAlarmPageKey r, r) ∈ (runDedup ltm inputs).newAlarms := by
  rw [runDedup_eq]
  apply List.mem_flatMap.mpr
  refine ⟨s, hs, ?_⟩
  unfold sourceAlarms
  rw [hk]
  exact List.mem_map.mpr ⟨r, List.mem_filter.mpr ⟨hr, hi⟩, rfl⟩

theorem includeB_parts {ltm : List (String × String)} {tts : List String}
    {k : SourceKind} {r : AlarmMessage} (h : includeB ltm tts k r = true) :
    trackGate tts k r = true
      ∧ strLtB (wmOf ltm (recordKey k r)) r.release_time = true
      ∧ isTestMessage r.CMAMtext = false := by
  rw [includeB_eq] at h
  simp only [Bool.and_eq_true, Bool.not_eq_true'] at h
  exact ⟨h.1, h.2.1, h.2.2⟩

/-! Concrete run scenarios used by witnesses and counterexamples. -/

/-- A later earthquake alert, delivered by the per-category feed. -/
def cexQuakeLate : AlarmMessage :=
  ⟨"202401012000", "abc", "quake late", "earthquakeew"⟩

/-- An earlier earthquake alert, delivered only by the monthly report. -/
def cexQuakeEarly : AlarmMessage :=
  ⟨"202401011000", "def", "quake early", "earthquakeew"⟩

/-- The resolved per-category source carrying `cexQuakeLate`. -/
def cexSingleSrc : SourceInput :=
  ⟨"https://cbs.tw/public/upload/files/json/2024_earthquakeew.json",
   some ⟨"application/json", true, FeedData.single [cexQuakeLate]⟩⟩

/-- The resolved monthly-report source carrying `cexQuakeEarly` nested two
mapping levels deep. -/
def cexMonthSrc : SourceInput :=
  ⟨"https://cbs.tw/public/upload/files/json/202401.json",
   some ⟨"application/json", true,
     FeedData.aggregated [("earthquakeew", [("20240101", [("0", cexQuakeEarly)])])]⟩⟩

/-- Persisted watermark: earthquake category last delivered at midnight. -/
def cexTags : List (String × String) := [("alertType_earthquakeew", "202401010000")]

/-- First run over both sources. -/
def cexRun : RunState := pipelineRun cexTags [cexSingleSrc, cexMonthSrc]

/-- Record with the same computed `pageKey` as `dupB` but an earlier
release time, seen by the per-category feed. -/
def dupA : AlarmMessage := ⟨"202401011000", "abc", "dup A", "earthquakeew"⟩

/-- Record with the same computed `pageKey` as `dupA` but a later release
time, seen by the monthly report. -/
def dupB : AlarmMessage := ⟨"202401011200", "abc", "dup B", "earthquakeew"⟩

/-- Per-category source carrying `dupA`. -/
def dupSingleSrc : SourceInput :=
  ⟨"https://cbs.tw/public/upload/files/json/2024_earthquakeew.json",
   some ⟨"application/json", true, FeedData.single [dupA]⟩⟩

/-- Monthly-report source carrying `dupB`. -/
def dupMonthSrc : SourceInput :=
  ⟨"https://cbs.tw/public/upload/files/json/202401.json",
   some ⟨"application/json", true,
     FeedData.aggregated [("earthquakeew", [("20240101", [("0", dupB)])])]⟩⟩

/-- Run in which the same physical bulletin arrives from both sources. -/
def dupRun : RunState := pipelineRun cexTags [dupSingleSrc, dupMonthSrc]

/-- A per-category source whose only record is older than the persisted
watermark, so nothing is included. -/
def staleSrc : SourceInput :=
  ⟨"https://cbs.tw/public/upload/files/json/2024_earthquakeew.json",
   some ⟨"application/json", true,
     FeedData.single [⟨"202301011000", "old", "stale quake", "earthquakeew"⟩]⟩⟩

/-- Run including only stale data: `tagUpdate` stays empty. -/
def staleRun : RunState := pipelineRun cexTags [staleSrc]

/-- A source location that matches neither filename pattern. -/
def badSrc : SourceInput :=
  ⟨"https://example.com/foo.json",
   some ⟨"application/json", true, FeedData.single [cexQuakeLate]⟩⟩

/-! Claim C9. -/

/-- C9 (confirmed): `getAlarmPageKey` returns the raw `page_key` unchanged
when its length reaches the uniqueness threshold 12; otherwise it prepends
the fragment of the numeric portion of `release_time` obtained by skipping
2 leading digits (the short year prefix) and taking 4, a fragment that is
all digits and, as soon as the numeric portion has at least 6 digits, has
length exactly 4. -/
theorem C9_pageKey (am : AlarmMessage) :
    (¬ am.page_key.length < 12 → getAlarmPageKey am = am.page_key) ∧
    (am.page_key.length < 12 →
      getAlarmPageKey am =
        String.mk (((numericPortion am.release_time).drop 2).take 4) ++ am.page_key
      ∧ (((numericPortion am.release_time).drop 2).take 4).all Char.isDigit = true
      ∧ (6 ≤ (numericPortion am.release_time).length →
          (((numericPortion am.release_time).drop 2).take 4).length = 4)) := by
  constructor
  · intro h
    unfold getAlarmPageKey
    rw [if_neg h]
  · intro h
    refine ⟨?_, ?_, ?_⟩
    · unfold getAlarmPageKey
      rw [if_pos h]
    · apply List.all_eq_true.mpr
      intro c hc
      have hmem : c ∈ numericPortion am.release_time :=
        List.mem_of_mem_drop (List.mem_of_mem_take hc)
      exact (List.mem_filter.mp hmem).2
    · intro hlen
      rw [List.length_take, List.length_drop]
      omega

/-- C9 witness at a record with a short raw page key. -/
theorem C9_pageKey_witness :
    (cexQuakeLate.page_key.length < 12) ∧
    (getAlarmPageKey cexQuakeLate =
        String.mk (((numericPortion cexQuakeLate.release_time).drop 2).take 4)
          ++ cexQuakeLate.page_key
      ∧ (((numericPortion cexQuakeLate.release_time).drop 2).take 4).all
          Char.isDigit = true
      ∧ (6 ≤ (numericPortion cexQuakeLate.release_time).length →
          (((numericPortion cexQuakeLate.release_time).drop 2).take 4).length = 4)) :=
  ⟨by decide, (C9_pageKey cexQuakeLate).2 (by decide)⟩

/-! Claim C10. -/

/-- C10 (confirmed): when the run includes no record — `tagUpdate` stays
empty — the post phase issues no watermark-store write at all: every issued
operation is a webhook post, none is a `tagWrite`. -/
theorem C10_no_write (ltm : List (String × String)) (inputs : List SourceInput)
    (env : Option String) (h : (runDedup ltm inputs).tagUpdate = []) :
    (postOps (runDedup ltm inputs) env).all (fun op => ! op.isTagWrite) = true := by
  unfold postOps
  rw [h]
  simp only [List.isEmpty_nil, if_true, List.nil_append]
  apply List.all_eq_true.mpr
  intro op hop
  unfold webhookOps at hop
  cases env with
  | none => simp at hop
  | some s =>
    by_cases hs : (s == "") = true
    · simp [hs] at hop
    · simp only [hs, Bool.false_eq_true, if_false] at hop
      rcases List.mem_flatMap.mp hop with ⟨kv, _, hm⟩
      rcases List.mem_map.mp hm with ⟨w, _, heq⟩
      rw [← heq]
      rfl

/-- C10 witness: a run whose only candidate record is older than the
watermark issues no operation at all besides (here) zero webhook posts of
zero alarms — in particular no tag write. -/
theorem C10_no_write_witness :
    (staleRun.tagUpdate = []) ∧
    (postOps staleRun (some "https://hooks.example/a")).all
      (fun op => ! op.isTagWrite) = true :=
  ⟨by decide,
   C10_no_write (fetchAlarmLatestUpdate cexTags) [staleSrc]
     (some "https://hooks.example/a") (by decide)⟩

/-! Claim C4. -/

/-- C4 (confirmed): whenever two included records share a computed
`pageKey`, the emitted notification object contains exactly one entry for
that key, and the entry's value is the record written last — the lookup on
the final object equals the lookup on the reversed assignment log, i.e. the
last processed assignment wins. -/
theorem C4_last_wins (ltm : List (String × String)) (inputs : List SourceInput)
    (pk : String) (r1 r2 : AlarmMessage)
    (h1 : (pk, r1) ∈ (runDedup ltm inputs).newAlarms)
    (h2 : (pk, r2) ∈ (runDedup ltm inputs).newAlarms) :
    (finalPairs (runDedup ltm inputs).newAlarms).countP (fun kv => kv.1 == pk) = 1
      ∧ List.lookup pk (finalPairs (runDedup ltm inputs).newAlarms) =
          List.lookup pk (runDedup ltm inputs).newAlarms.reverse := by
  constructor
  · apply countP_key_of_nodup (keys_nodup_finalPairs _)
    exact (mem_keys_finalPairs _ _).mpr (List.mem_map_of_mem Prod.fst h1)
  · exact lookup_finalPairs _ _

/-- C4 witness: `dupA` and `dupB` come from different sources with
different release times but the same computed pageKey `2401abc`; the final
object holds exactly one entry for it, namely `dupB`, the one processed
last. -/
theorem C4_last_wins_witness :
    (("2401abc", dupA) ∈ dupRun.newAlarms)
      ∧ (("2401abc", dupB) ∈ dupRun.newAlarms)
      ∧ (List.lookup "2401abc" dupRun.newAlarms.reverse = some dupB)
      ∧ ((finalPairs dupRun.newAlarms).countP (fun kv => kv.1 == "2401abc") = 1
          ∧ List.lookup "2401abc" (finalPairs dupRun.newAlarms) =
              List.lookup "2401abc" dupRun.newAlarms.reverse) :=
  ⟨by decide, by decide, by decide,
   C4_last_wins (fetchAlarmLatestUpdate cexTags) [dupSingleSrc, dupMonthSrc]
     "2401abc" dupA dupB (by decide) (by decide)⟩

/-! Claim C5. -/

/-- C5 (confirmed): a record whose body matches the drill/test filter is
never present in the new-alert set — every entry of `newAlarms` has a
non-matching body — and never advances the watermark: every `tagUpdate`
write value is the `release_time` of an included (hence non-drill)
record. -/
theorem C5_drill_filtered (ltm : List (String × String)) (inputs : List SourceInput) :
    (∀ e ∈ (runDedup ltm inputs).newAlarms, isTestMessage e.2.CMAMtext = false)
      ∧ (∀ w ∈ (runDedup ltm inputs).tagUpdate, ∃ pk r,
          (pk, r) ∈ (runDedup ltm inputs).newAlarms
            ∧ isTestMessage r.CMAMtext = false ∧ w.2 = r.release_time) := by
  constructor
  · intro e he
    obtain ⟨pk, r⟩ := e
    rcases mem_newAlarms_spec he with ⟨s, hs, k, hk, hr, hi, _⟩
    exact (includeB_parts hi).2.2
  · intro w hw
    obtain ⟨key, v⟩ := w
    rcases mem_tagUpdate_spec hw with ⟨s, hs, k, r, hk, hr, hi, _, hv⟩
    exact ⟨getAlarmPageKey r, r, alarm_mem_of_included hs hk hr hi,
      (includeB_parts hi).2.2, hv⟩

/-- C5 witness: in a run containing a drill record (body `演習`) newer than
the watermark, the new-alert set still contains only non-drill entries, and
the single watermark write stems from the included non-drill record. -/
theorem C5_drill_filtered_witness :
    (("2401abc", cexQuakeLate) ∈ cexRun.newAlarms)
      ∧ isTestMessage cexQuakeLate.CMAMtext = false
      ∧ (∃ pk r, (pk, r) ∈ cexRun.newAlarms
          ∧ isTestMessage r.CMAMtext = false ∧ "202401012000" = r.release_time) :=
  ⟨by decide,
   (C5_drill_filtered (fetchAlarmLatestUpdate cexTags) [cexSingleSrc, cexMonthSrc]).1
     ("2401abc", cexQuakeLate) (by decide),
   (C5_drill_filtered (fetchAlarmLatestUpdate cexTags) [cexSingleSrc, cexMonthSrc]).2
     (tagKey "earthquakeew", "202401012000") (by decide)⟩

/-! Claim C6. -/

/-- C6 (confirmed): for a successful JSON aggregated payload, the
normalizer produces exactly the alert records reached by flattening the
payload's nested mappings — output is a permutation (it is subsequently
sorted by release time) of the flat leaf sequence, and a record is in the
output iff it is a leaf of the nesting; records are kept whole, so each
keeps its own embedded `alertType` category. -/
theorem C6_flatten (r : RawResponse)
    (d : List (String × List (String × List (String × AlarmMessage))))
    (hct : r.contentType = "application/json") (hs : r.success = true)
    (hp : r.payload = FeedData.aggregated d) :
    ∃ l, normalizeFeed (some SourceKind.monthReport) (some r) = some l
      ∧ l.Perm (flattenAggregated d)
      ∧ (∀ am, am ∈ l ↔ ∃ g1 ∈ objValues d, ∃ g2 ∈ objValues g1, am ∈ objValues g2) := by
  obtain ⟨ct, suc, pl⟩ := r
  simp only at hct hs hp
  subst hct hs hp
  refine ⟨sortRecords (flattenAggregated d), ?_, ?_, ?_⟩
  · simp [normalizeFeed]
  · exact List.perm_insertionSort leRecP _
  · intro am
    unfold sortRecords
    rw [List.mem_insertionSort]
    unfold flattenAggregated
    simp only [List.mem_flatMap]
    tauto

/-- The aggregated payload used by the C6 witness: two top-level groups,
with nested sub-groups, four leaf records in all. -/
def aggData0 : List (String × List (String × List (String × AlarmMessage))) :=
  [("earthquakeew",
     [("20240101", [("0", cexQuakeEarly), ("1", cexQuakeLate)]),
      ("20240102", [("0", dupB)])]),
   ("rain", [("20240103", [("0", ⟨"202401031111", "zzz", "rain", "rain"⟩)])])]

/-- The response carrying `aggData0`. -/
def aggResp0 : RawResponse := ⟨"application/json", true, FeedData.aggregated aggData0⟩

/-- C6 witness at a concrete two-level nested payload. -/
theorem C6_flatten_witness :
    (aggResp0.contentType = "application/json" ∧ aggResp0.success = true
      ∧ aggResp0.payload = FeedData.aggregated aggData0)
    ∧ (∃ l, normalizeFeed (some SourceKind.monthReport) (some aggResp0) = some l
        ∧ l.Perm (flattenAggregated aggData0)
        ∧ (∀ am, am ∈ l ↔
            ∃ g1 ∈ objValues aggData0, ∃ g2 ∈ objValues g1, am ∈ objValues g2)) :=
  ⟨⟨rfl, rfl, rfl⟩, C6_flatten aggResp0 aggData0 rfl rfl rfl⟩

/-! Claim C7. -/

/-- C7 counterexample: the concrete location `https://example.com/foo.json`
matches neither filename pattern, yet the run does not fail fast — the
handler still returns the normal accepted result, and the dedup pass over
that source (whose fetch even succeeded with data) produces the empty
state; the source is silently skipped, contradicting the claimed
configuration error. -/
theorem C7_counterexample :
    resolveSourceType "https://example.com/foo.json" = none
      ∧ handler ["https://example.com/foo.json"] "2024" "01" (some cexTags)
          [some ⟨"application/json", true, FeedData.single [cexQuakeLate]⟩]
          (some "https://hooks.example/a") (fun _ => false) = Except.ok ⟨204, ""⟩
      ∧ pipelineRun cexTags [badSrc] = ⟨[], []⟩
      ∧ pipelineRun cexTags [badSrc, cexSingleSrc] = pipelineRun cexTags [cexSingleSrc] :=
  ⟨by decide, by rfl, by decide, by decide⟩

/-- C7 (corrected): a configured source whose resolved location matches
neither the per-category nor the period-aggregated pattern is not a
fail-fast configuration error; it is silently skipped — it gets no kind,
contributes no tracked category, and removing it from the run leaves the
dedup result unchanged. -/
theorem C7_amended (ltm : List (String × String)) (pre post : List SourceInput)
    (s : SourceInput) (h : kindOf s = none) :
    runDedup ltm (pre ++ s :: post) = runDedup ltm (pre ++ post) := by
  have htts : textTypesOf (pre ++ s :: post) = textTypesOf (pre ++ post) := by
    unfold textTypesOf
    simp [List.filterMap_append, List.filterMap_cons, h]
  rw [runDedup_eq, runDedup_eq, htts]
  have ha : sourceAlarms ltm (textTypesOf (pre ++ post)) s = [] := by
    unfold sourceAlarms
    rw [h]
  have hw : sourceWrites ltm (textTypesOf (pre ++ post)) s = [] := by
    unfold sourceWrites
    rw [h]
  simp [List.flatMap_append, List.flatMap_cons, ha, hw]

/-- C7 witness: the unmatched source is skipped in a run alongside a valid
source. -/
theorem C7_amended_witness :
    (kindOf badSrc = none)
      ∧ runDedup (fetchAlarmLatestUpdate cexTags) ([] ++ badSrc :: [cexSingleSrc]) =
          runDedup (fetchAlarmLatestUpdate cexTags) ([] ++ [cexSingleSrc]) :=
  ⟨by decide,
   C7_amended (fetchAlarmLatestUpdate cexTags) [] [cexSingleSrc] badSrc (by decide)⟩

/-! Claim C8. -/

/-- C8 counterexample: with one included alarm and a configured webhook,
an oracle failing every post-phase operation makes the handler reject the
invocation — `await Promise.all(postPromises)` has no catch — so the fixed
204 result is not returned and the failure is surfaced to the invoker. -/
theorem C8_counterexample :
    handler ["https://cbs.tw/public/upload/files/json/{year}_earthquakeew.json"]
        "2024" "01" (some cexTags)
        [some ⟨"application/json", true, FeedData.single [cexQuakeLate]⟩]
        (some "https://hooks.example/a") (fun _ => true) = Except.error ()
      ∧ handler ["https://cbs.tw/public/upload/files/json/{year}_earthquakeew.json"]
          "2024" "01" (some cexTags)
          [some ⟨"application/json", true, FeedData.single [cexQuakeLate]⟩]
          (some "https://hooks.example/a") (fun _ => false) = Except.ok ⟨204, ""⟩ :=
  ⟨by rfl, by rfl⟩

/-- C8 (corrected): the handler returns the fixed accepted-no-content
result exactly on the runs whose tag read and post-phase operations all
succeed; source fetch/parse failures never surface, but a watermark write
failure or webhook delivery failure rejects the invocation. -/
theorem C8_amended (sources : List String) (year month : String)
    (tags : List (String × String)) (responses : List (Option RawResponse))
    (env : Option String) (postFails : PostOp → Bool)
    (h : ∀ op ∈ handlerOps sources year month tags responses env,
      postFails op = false) :
    handler sources year month (some tags) responses env postFails =
      Except.ok ⟨204, ""⟩ := by
  have hall : ((handlerOps sources year month tags responses env).all
      (fun op => !postFails op)) = true := by
    apply List.all_eq_true.mpr
    intro op hop
    simp [h op hop]
  unfold handler
  simp [hall]

/-- C8 witness: all post operations succeed, the handler returns 204 with
an empty body. -/
theorem C8_amended_witness :
    (∀ op ∈ handlerOps ["https://cbs.tw/public/upload/files/json/{year}_earthquakeew.json"]
        "2024" "01" cexTags
        [some ⟨"application/json", true, FeedData.single [cexQuakeLate]⟩]
        (some "https://hooks.example/a"), (fun _ => false : PostOp → Bool) op = false)
      ∧ handler ["https://cbs.tw/public/upload/files/json/{year}_earthquakeew.json"]
          "2024" "01" (some cexTags)
          [some ⟨"application/json", true, FeedData.single [cexQuakeLate]⟩]
          (some "https://hooks.example/a") (fun _ => false) = Except.ok ⟨204, ""⟩ :=
  ⟨fun op _ => rfl,
   C8_amended ["https://cbs.tw/public/upload/files/json/{year}_earthquakeew.json"]
     "2024" "01" cexTags
     [some ⟨"application/json", true, FeedData.single [cexQuakeLate]⟩]
     (some "https://hooks.example/a") (fun _ => false) (fun op _ => rfl)⟩

/-! Claim C1. -/

/-- C1 counterexample: in `cexRun`, the per-category source first includes
`cexQuakeLate` and writes running watermark `202401012000` for category
`earthquakeew`; the monthly report's record `cexQuakeEarly` of the same
category is processed later, its `release_time` `202401011000` sorts
strictly *before* that running value, yet it is still included — the dedup
loop compares only against the loaded persisted watermark, so the claimed
use of the running `WatermarkUpdateSet` value is false. -/
theorem C1_counterexample :
    cexRun.tagUpdate =
        [(tagKey "earthquakeew", "202401012000"),
         (tagKey "earthquakeew", "202401011000")]
      ∧ ("2401def", cexQuakeEarly) ∈ cexRun.newAlarms
      ∧ strLtB cexQuakeEarly.release_time "202401012000" = true := by
  refine ⟨by decide, by decide, by decide⟩

/-- C1 (corrected): a processed record is included only if its
`release_time` sorts strictly after the *loaded persisted* watermark for
its category (and its body does not match the drill filter); the running
`WatermarkUpdateSet` is never consulted, so a record may be included even
when an earlier source already set a larger running value this run. -/
theorem C1_amended (ltm : List (String × String)) (inputs : List SourceInput)
    (pk : String) (r : AlarmMessage)
    (h : (pk, r) ∈ (runDedup ltm inputs).newAlarms) :
    ∃ k, strLtB (wmOf ltm (recordKey k r)) r.release_time = true
      ∧ isTestMessage r.CMAMtext = false
      ∧ pk = getAlarmPageKey r
      ∧ (recordKey k r, r.release_time) ∈ (runDedup ltm inputs).tagUpdate := by
  rcases mem_newAlarms_spec h with ⟨s, hs, k, hk, hr, hi, hpk⟩
  exact ⟨k, (includeB_parts hi).2.1, (includeB_parts hi).2.2, hpk,
    write_mem_of_included hs hk hr hi⟩

/-- C1 witness: the included record `cexQuakeEarly` sorts after the loaded
watermark `202401010000`, which is all the code checks. -/
theorem C1_amended_witness :
    (("2401def", cexQuakeEarly) ∈ cexRun.newAlarms)
      ∧ (∃ k, strLtB (wmOf (fetchAlarmLatestUpdate cexTags) (recordKey k cexQuakeEarly))
              cexQuakeEarly.release_time = true
          ∧ isTestMessage cexQuakeEarly.CMAMtext = false
          ∧ "2401def" = getAlarmPageKey cexQuakeEarly
          ∧ (recordKey k cexQuakeEarly, cexQuakeEarly.release_time) ∈ cexRun.tagUpdate) :=
  ⟨by decide,
   C1_amended (fetchAlarmLatestUpdate cexTags) [cexSingleSrc, cexMonthSrc]
     "2401def" cexQuakeEarly (by decide)⟩

/-! Claim C2. -/

/-- C2 counterexample: in `cexRun` the write sequence for category
`earthquakeew` is `202401012000` followed by `202401011000` — the second
write regresses below the first, because the later source compares against
the persisted watermark only; so the claimed cross-source monotonicity of
`WatermarkUpdateSet` within a run is false. -/
theorem C2_counterexample :
    ¬ List.Pairwise (fun a b : String => strLtB b a = false)
        ((cexRun.tagUpdate.filter
            (fun kv => kv.1 == tagKey "earthquakeew")).map Prod.snd) := by
  decide

/-- C2 (corrected): every value written to `WatermarkUpdateSet` is the
`release_time` of an included record, and within each single source —
whose records are processed in ascending release-time order — the write
sequence is non-decreasing (for every category, since it is non-decreasing
even across categories); across different sources of one run, however, a
later write can regress below an earlier one. -/
theorem C2_amended (ltm : List (String × String)) (inputs : List SourceInput) :
    (∀ w ∈ (runDedup ltm inputs).tagUpdate, ∃ pk r,
        (pk, r) ∈ (runDedup ltm inputs).newAlarms ∧ w.2 = r.release_time)
      ∧ (∀ s ∈ inputs,
          List.Pairwise (fun a b : String × String => strLtB b.2 a.2 = false)
            (sourceWrites ltm (textTypesOf inputs) s)) := by
  constructor
  · intro w hw
    obtain ⟨key, v⟩ := w
    rcases mem_tagUpdate_spec hw with ⟨s, hs, k, r, hk, hr, hi, _, hv⟩
    exact ⟨getAlarmPageKey r, r, alarm_mem_of_included hs hk hr hi, hv⟩
  · intro s _
    exact sourceWrites_pairwise ltm (textTypesOf inputs) s

/-- C2 witness: the first write of `cexRun` is the release time of the
included record `cexQuakeLate`, and the per-category source's own write
sequence is (trivially) non-decreasing. -/
theorem C2_amended_witness :
    ((tagKey "earthquakeew", "202401012000") ∈ cexRun.tagUpdate)
      ∧ (cexSingleSrc ∈ [cexSingleSrc, cexMonthSrc])
      ∧ (∃ pk r, (pk, r) ∈ cexRun.newAlarms ∧ "202401012000" = r.release_time)
      ∧ List.Pairwise (fun a b : String × String => strLtB b.2 a.2 = false)
          (sourceWrites (fetchAlarmLatestUpdate cexTags)
            (textTypesOf [cexSingleSrc, cexMonthSrc]) cexSingleSrc) :=
  ⟨by decide, by decide,
   (C2_amended (fetchAlarmLatestUpdate cexTags) [cexSingleSrc, cexMonthSrc]).1
     (tagKey "earthquakeew", "202401012000") (by decide),
   (C2_amended (fetchAlarmLatestUpdate cexTags) [cexSingleSrc, cexMonthSrc]).2
     cexSingleSrc (by decide)⟩

theorem secondRun_includeB_false (tags : List (String × String))
    (inputs : List SourceInput)
    (hmax : ∀ w ∈ (pipelineRun tags inputs).tagUpdate,
      strLtB ((List.lookup w.1 (pipelineRun tags inputs).tagUpdate.reverse).getD "")
        w.2 = false) :
    ∀ s ∈ inputs, ∀ k, kindOf s = some k → ∀ r ∈ sourceMsgs s,
      includeB (fetchAlarmLatestUpdate (commitTags tags (pipelineRun tags inputs)))
        (textTypesOf inputs) k r = false := by
  unfold pipelineRun at hmax ⊢
  intro s hs k hk r hr
  rw [includeB_eq]
  by_cases hg : trackGate (textTypesOf inputs) k r = true
  swap
  · rw [Bool.not_eq_true] at hg
    rw [hg, Bool.false_and]
  by_cases ht : isTestMessage r.CMAMtext = true
  · rw [hg, ht]
    simp
  have hnt : isTestMessage r.CMAMtext = false := by simpa using ht
  suffices hmid :
      strLtB
        (wmOf
          (fetchAlarmLatestUpdate
            (commitTags tags (runDedup (fetchAlarmLatestUpdate tags) inputs)))
          (recordKey k r))
        r.release_time = false by
    rw [hg, hnt, hmid]
    simp
  by_cases hinc : includeB (fetchAlarmLatestUpdate tags) (textTypesOf inputs) k r = true
  · have hw : (recordKey k r, r.release_time) ∈
        (runDedup (fetchAlarmLatestUpdate tags) inputs).tagUpdate :=
      write_mem_of_included hs hk hr hinc
    have hkmem : recordKey k r ∈
        (runDedup (fetchAlarmLatestUpdate tags) inputs).tagUpdate.reverse.map Prod.fst := by
      rw [List.map_reverse, List.mem_reverse]
      exact List.mem_map_of_mem Prod.fst hw
    obtain ⟨vlast, hvl⟩ := Option.isSome_iff_exists.mp (lookup_isSome_iff.mpr hkmem)
    have hvr : strLtB vlast r.release_time = false := by
      have := hmax (recordKey k r, r.release_time) hw
      rw [hvl] at this
      simpa using this
    have hne : (runDedup (fetchAlarmLatestUpdate tags) inputs).tagUpdate ≠ [] := by
      intro hh
      rw [hh] at hw
      simp at hw
    have hlk : List.lookup (recordKey k r)
        (finalPairs (runDedup (fetchAlarmLatestUpdate tags) inputs).tagUpdate) =
          some vlast := by
      rw [lookup_finalPairs]
      exact hvl
    have hwm :
        wmOf
          (fetchAlarmLatestUpdate
            (commitTags tags (runDedup (fetchAlarmLatestUpdate tags) inputs)))
          (recordKey k r) = vlast := by
      unfold wmOf
      rw [commit_fetch_eq hne, lookup_append_some hlk]
      rfl
    rw [hwm]
    exact hvr
  · have hfalse1 : includeB (fetchAlarmLatestUpdate tags) (textTypesOf inputs) k r
        = false := by simpa using hinc
    rw [includeB_eq] at hfalse1
    have hlt1 : strLtB (wmOf (fetchAlarmLatestUpdate tags) (recordKey k r))
        r.release_time = false := by
      by_contra hcon
      have hcon' : strLtB (wmOf (fetchAlarmLatestUpdate tags) (recordKey k r))
          r.release_time = true := by simpa using hcon
      rw [hg, hcon', hnt] at hfalse1
      simp at hfalse1
    by_cases hupd : (runDedup (fetchAlarmLatestUpdate tags) inputs).tagUpdate = []
    · have hcommit : commitTags tags (runDedup (fetchAlarmLatestUpdate tags) inputs)
          = tags := by
        unfold commitTags
        simp [hupd]
      rw [hcommit]
      exact hlt1
    · by_cases hkey : recordKey k r ∈
          (runDedup (fetchAlarmLatestUpdate tags) inputs).tagUpdate.map Prod.fst
      · have hkmem : recordKey k r ∈
            (runDedup (fetchAlarmLatestUpdate tags) inputs).tagUpdate.reverse.map
              Prod.fst := by
          rw [List.map_reverse, List.mem_reverse]
          exact hkey
        obtain ⟨vlast, hvl⟩ :=
          Option.isSome_iff_exists.mp (lookup_isSome_iff.mpr hkmem)
        have hvmem : (recordKey k r, vlast) ∈
            (runDedup (fetchAlarmLatestUpdate tags) inputs).tagUpdate :=
          List.mem_reverse.mp (mem_of_lookup_some hvl)
        rcases mem_tagUpdate_spec hvmem with ⟨s', hs', k', r', hk', hr', hi', hkey', hv'⟩
        have hwmv : strLtB (wmOf (fetchAlarmLatestUpdate tags) (recordKey k r))
            vlast = true := by
          rw [hkey', hv']
          exact (includeB_parts hi').2.1
        have hlk : List.lookup (recordKey k r)
            (finalPairs (runDedup (fetchAlarmLatestUpdate tags) inputs).tagUpdate) =
              some vlast := by
          rw [lookup_finalPairs]
          exact hvl
        have hwm :
            wmOf
              (fetchAlarmLatestUpdate
                (commitTags tags (runDedup (fetchAlarmLatestUpdate tags) inputs)))
              (recordKey k r) = vlast := by
          unfold wmOf
          rw [commit_fetch_eq hupd, lookup_append_some hlk]
          rfl
        rw [hwm]
        by_cases hvr : strLtB vlast r.release_time = true
        · exact absurd (strLtB_trans hwmv hvr) (by simp [hlt1])
        · simpa using hvr
      · have hnone : List.lookup (recordKey k r)
            (finalPairs (runDedup (fetchAlarmLatestUpdate tags) inputs).tagUpdate) =
              none := by
          rw [lookup_finalPairs]
          apply lookup_not_mem
          rw [List.map_reverse, List.mem_reverse]
          exact hkey
        have hwm :
            wmOf
              (fetchAlarmLatestUpdate
                (commitTags tags (runDedup (fetchAlarmLatestUpdate tags) inputs)))
              (recordKey k r)
            = wmOf (fetchAlarmLatestUpdate tags) (recordKey k r) := by
          unfold wmOf
          rw [commit_fetch_eq hupd, lookup_append_none hnone]
        rw [hwm]
        exact hlt1

/-! Claim C3. -/

/-- C3 counterexample: running `cexRun` commits `202401011000` for the
earthquake category (the *last* write, which regressed below the earlier
write `202401012000`), so an immediate second run over the same unchanged
feed content re-includes `cexQuakeLate` — the second run is not empty. -/
theorem C3_counterexample :
    (pipelineRun (commitTags cexTags cexRun) [cexSingleSrc, cexMonthSrc]).newAlarms ≠ []
      ∧ ("2401abc", cexQuakeLate) ∈
          (pipelineRun (commitTags cexTags cexRun) [cexSingleSrc, cexMonthSrc]).newAlarms := by
  refine ⟨by decide, by decide⟩

/-- C3 (corrected): a second run over unchanged feed content from the
committed watermarks includes zero records *provided* that in the first run
each category's last watermark write is the maximum value written for that
category (the committed value is the last write, not the maximum, so this
can fail when several sources include records of one category — see the
counterexample); under that proviso both the new-alert set and the update
set of the second run are empty. -/
theorem C3_amended (tags : List (String × String)) (inputs : List SourceInput)
    (hmax : ∀ w ∈ (pipelineRun tags inputs).tagUpdate,
      strLtB ((List.lookup w.1 (pipelineRun tags inputs).tagUpdate.reverse).getD "")
        w.2 = false) :
    (pipelineRun (commitTags tags (pipelineRun tags inputs)) inputs).newAlarms = []
      ∧ (pipelineRun (commitTags tags (pipelineRun tags inputs)) inputs).tagUpdate
          = [] := by
  have hfalse := secondRun_includeB_false tags inputs hmax
  constructor
  · rw [List.eq_nil_iff_forall_not_mem]
    intro e he
    obtain ⟨pk, r⟩ := e
    rcases mem_newAlarms_spec he with ⟨s, hs, k, hk, hr, hi, _⟩
    have hx := hfalse s hs k hk r hr
    rw [hx] at hi
    exact Bool.false_ne_true hi
  · rw [List.eq_nil_iff_forall_not_mem]
    intro e he
    obtain ⟨key, v⟩ := e
    rcases mem_tagUpdate_spec he with ⟨s, hs, k, r, hk, hr, hi, _, _⟩
    have hx := hfalse s hs k hk r hr
    rw [hx] at hi
    exact Bool.false_ne_true hi

/-- C3 witness: with a single source per category the committed value is the
maximum write, and the second run over unchanged content is empty. -/
theorem C3_amended_witness :
    (∀ w ∈ (pipelineRun cexTags [cexSingleSrc]).tagUpdate,
      strLtB ((List.lookup w.1
          (pipelineRun cexTags [cexSingleSrc]).tagUpdate.reverse).getD "") w.2 = false)
      ∧ ((pipelineRun (commitTags cexTags (pipelineRun cexTags [cexSingleSrc]))
            [cexSingleSrc]).newAlarms = []
          ∧ (pipelineRun (commitTags cexTags (pipelineRun cexTags [cexSingleSrc]))
              [cexSingleSrc]).tagUpdate = []) :=
  ⟨by decide, C3_amended cexTags [cexSingleSrc] (by decide)⟩
